import Mathlib

/-!
Verification of the encoding-fixer repository against its design
specification.

The development shallowly embeds the two repair engines of the
repository:

* `EncodingFixer.fix_filename_encoding` — the mojibake / brute-force
  filename repair chain of `encoding_fixer.py` (`EncodingFixer` class);
* `EncodingFixer.fix_pathname` / `EncodingFixer.decode_unicode_escape` —
  the `#U`-escape filename repair of `filename_unicode_fixer.py`
  (`UnicodeFilenameFixer` class);
* `EncodingFixer.fix_file_content_encoding` — the content transcoding of
  `encoding_fixer.py`.

Python strings are modelled as lists of Unicode code points
(`List Nat`), byte strings as lists of byte values (`List Nat`).  The
filesystem and the external libraries (the `chardet` prober and the
non-trivial codecs) are modelled as explicit parameters: a run of an
engine is a pure function of the engine input and of the behaviour of
those collaborators.  Each engine returns, besides its Python return
value, the ordered list of externally visible actions it performed
(codec decode calls and rename attempts), so that claims about *which*
renames are attempted become statements about the returned event list.
-/

namespace EncodingFixer

/-- A filesystem location: the parent directory (never touched by the
engines, kept abstract as a string) and the entry name, as a list of
Unicode code points (Python `pathlib.Path.parent` / `.name`). -/
structure Path where
  parent : String
  name : List Nat
deriving DecidableEq, Repr

/-- The filesystem behaviour visible to the rename logic:
`pathExists p` models `p.exists()`, and `renameOk src dst` tells whether
`src.rename(dst)` succeeds (`false` = the rename raises an I/O error,
which the Python code catches). -/
structure FSModel where
  pathExists : Path → Bool
  renameOk : Path → Path → Bool

/-- Externally visible actions of a filename-repair run: a decode call
`bytes.decode(enc, errors='ignore')` issued during brute-force recovery,
or an attempted `src.rename(dst)` (attempted = the existence check
passed and `rename` was actually invoked, successfully or not). -/
inductive Event where
  | decodeCall : String → List Nat → Event
  | renameAttempt : Path → Path → Event
deriving DecidableEq, Repr

/-- The rename attempts (source, destination) contained in an event
trace, in order. -/
def renamesOf : List Event → List (Path × Path)
  | [] => []
  | Event.renameAttempt p q :: rest => (p, q) :: renamesOf rest
  | Event.decodeCall _ _ :: rest => renamesOf rest

/-- `EncodingFixer.is_filename_valid`: `filename.encode('ascii')`
succeeds exactly when every code point is 7-bit ASCII. -/
def is_filename_valid (filename : List Nat) : Bool :=
  filename.all (fun c => c < 128)

/-- The fixed mojibake table of `fix_filename_encoding`, in source
order, as code-point lists.  The keys/values of the Python dict are
(UTF-8 of the source file decoded): `'æ–‡ä»¶' → '文件'`, `'Ã©' → 'é'`,
`'Ã¨' → 'è'`, `'Ã ' → 'à'` (the key is `Ã` followed by a plain space),
`'Ã±' → 'ñ'`, `'Ã¤' → 'ä'`, `'Ã¶' → 'ö'`, `'Ã¼' → 'ü'`. -/
def mojibake_fixes : List (List Nat × List Nat) :=
  [([0xE6, 0x2013, 0x2021, 0xE4, 0xBB, 0xB6], [0x6587, 0x4EF6]),
   ([0xC3, 0xA9], [0xE9]),
   ([0xC3, 0xA8], [0xE8]),
   ([0xC3, 0x20], [0xE0]),
   ([0xC3, 0xB1], [0xF1]),
   ([0xC3, 0xA4], [0xE4]),
   ([0xC3, 0xB6], [0xF6]),
   ([0xC3, 0xBC], [0xFC])]

/-- Whether `pat` is an initial segment of `s`. -/
def startsWithPat : List Nat → List Nat → Bool
  | [], _ => true
  | _ :: _, [] => false
  | p :: ps, c :: cs => p == c && startsWithPat ps cs

/-- Whether `pat` occurs as a contiguous sublist of `s`. -/
def occursIn (pat : List Nat) : List Nat → Bool
  | [] => pat == []
  | c :: rest => startsWithPat pat (c :: rest) || occursIn pat rest

/-- Fuel-driven worker for `listReplace`; the fuel bounds the length of
the yet-unscanned input, so `fuel = s.length` always suffices. -/
def listReplaceFuel (rep pat : List Nat) : Nat → List Nat → List Nat
  | 0, s => s
  | _ + 1, [] => []
  | fuel + 1, c :: rest =>
    if pat != [] && startsWithPat pat (c :: rest) then
      rep ++ listReplaceFuel rep pat fuel ((c :: rest).drop pat.length)
    else
      c :: listReplaceFuel rep pat fuel rest

/-- Python `s.replace(pat, rep)`: replace every non-overlapping
occurrence of `pat`, scanning left to right and never rescanning
replaced text.  (The table applied below contains no empty pattern, so
Python's empty-pattern behaviour is not modelled.) -/
def listReplace (s pat rep : List Nat) : List Nat :=
  listReplaceFuel rep pat s.length s

/-- The mojibake pass of `fix_filename_encoding` (lines 65–67): apply
each table entry with `str.replace`, in table order. -/
def applyMojibake (filename : List Nat) : List Nat :=
  mojibake_fixes.foldl (fun acc pr => listReplace acc pr.1 pr.2) filename

/-- `filename.encode('latin1')`: succeeds (returning the code points as
byte values) exactly when every code point is below 256; otherwise the
Python call raises `UnicodeEncodeError` (modelled as `none`). -/
def encodeLatin1 (filename : List Nat) : Option (List Nat) :=
  if filename.all (fun c => c < 256) then some filename else none

/-- `bytes.decode('latin1')`: Latin-1 maps byte `k` to code point `k`,
so on our byte lists it is the identity. -/
def decodeLatin1 (bs : List Nat) : List Nat := bs

/-- The brute-force candidate list `encodings_to_try` (source encodings
only; the target of every pair is `'utf-8'` and is never consulted by
the logic). -/
def encodings_to_try : List String :=
  ["latin1", "cp1252", "gbk", "gb2312", "big5"]

/-- The guard of line 101 of `encoding_fixer.py` for one brute-force
candidate: the decoded name is non-empty (`if decoded_name`), passes
`is_filename_valid`, and the destination does not exist. -/
def code_candidate_ok (fs : FSModel) (dec : String → List Nat → List Nat)
    (path : Path) (bs : List Nat) (e : String) : Bool :=
  dec e bs != [] && is_filename_valid (dec e bs) &&
    !(fs.pathExists ⟨path.parent, dec e bs⟩)

/-- Modelled from the spec (§4.5 step 4): the acceptance test the spec
prescribes for a brute-force candidate — non-empty, *different from the
raw garbled name*, not colliding; passing `isClean` is explicitly *not*
required.  Kept separate from `code_candidate_ok` so the two can be
compared. -/
def spec_candidate_ok (fs : FSModel) (dec : String → List Nat → List Nat)
    (path : Path) (bs : List Nat) (e : String) : Bool :=
  dec e bs != [] && dec e bs != path.name &&
    !(fs.pathExists ⟨path.parent, dec e bs⟩)

/-- The brute-force loop of `fix_filename_encoding` (lines 91–113).
`dec enc bs` models `bs.decode(enc, errors='ignore')` (total, never
raises).  If `filename.encode('latin1')` raises, the outer `except`
catches and the iteration moves on; on a failed rename the inner
`except` catches and the loop continues with the next candidate. -/
def bruteForce (fs : FSModel) (dec : String → List Nat → List Nat)
    (file_path : Path) (filename : List Nat) :
    List String → Option Path × List Event
  | [] => (none, [])
  | from_enc :: rest =>
    match encodeLatin1 filename with
    | none => bruteForce fs dec file_path filename rest
    | some bs =>
      let decoded_name := dec from_enc bs
      let new_path : Path := ⟨file_path.parent, decoded_name⟩
      if decoded_name != [] && is_filename_valid decoded_name &&
          !(fs.pathExists new_path) then
        if fs.renameOk file_path new_path then
          (some new_path,
           [Event.decodeCall from_enc bs,
            Event.renameAttempt file_path new_path])
        else
          let r := bruteForce fs dec file_path filename rest
          (r.1, Event.decodeCall from_enc bs ::
                Event.renameAttempt file_path new_path :: r.2)
      else
        let r := bruteForce fs dec file_path filename rest
        (r.1, Event.decodeCall from_enc bs :: r.2)

/-- `EncodingFixer.fix_filename_encoding` (lines 42–116): returns the
new path on a successful rename (`None` otherwise) together with the
trace of decode calls and rename attempts.  Mirrors the source control
flow: early return on an ASCII-clean name; mojibake pass, and if it
changed the name and the target is free, attempt the rename — on an
I/O failure the function returns `None` *without* running brute force
(line 80); if the mojibake pass changed nothing, or its target already
exists, fall through to the brute-force loop on the *original* name. -/
def fix_filename_encoding (fs : FSModel)
    (dec : String → List Nat → List Nat) (file_path : Path) :
    Option Path × List Event :=
  let filename := file_path.name
  if is_filename_valid filename then (none, [])
  else
    let new_filename := applyMojibake filename
    if new_filename != filename then
      let new_path : Path := ⟨file_path.parent, new_filename⟩
      if !(fs.pathExists new_path) then
        if fs.renameOk file_path new_path then
          (some new_path, [Event.renameAttempt file_path new_path])
        else
          (none, [Event.renameAttempt file_path new_path])
      else
        bruteForce fs dec file_path filename encodings_to_try
    else
      bruteForce fs dec file_path filename encodings_to_try

/-- ASCII hex digit test, on code points (`[0-9a-fA-F]`). -/
def isHexDigit (c : Nat) : Bool :=
  (48 ≤ c && c ≤ 57) || (97 ≤ c && c ≤ 102) || (65 ≤ c && c ≤ 70)

/-- Value of an ASCII hex digit (meaningful under `isHexDigit`). -/
def hexVal (c : Nat) : Nat :=
  if c ≤ 57 then c - 48 else if 97 ≤ c then c - 87 else c - 55

/-- The code point denoted by four hex digits. -/
def hexNum (a b c d : Nat) : Nat :=
  ((hexVal a * 16 + hexVal b) * 16 + hexVal c) * 16 + hexVal d

/-- Fuel-driven worker for `decode_unicode_escape`; fuel bounds the
unscanned length, so `fuel = l.length` always suffices.  Mirrors
`re.sub(r'#U([0-9a-fA-F]{4})', ..., filename)`: at each position try to
match `#U` + 4 hex digits (35 = `'#'`, 85 = `'U'`); on a match emit the
code point and resume after it; otherwise emit the head character and
rescan from the next position. -/
def decodeEscAux : Nat → List Nat → List Nat
  | 0, l => l
  | _ + 1, [] => []
  | fuel + 1, x :: xs =>
    match x, xs with
    | 35, 85 :: a :: b :: c :: d :: rest2 =>
      if isHexDigit a && isHexDigit b && isHexDigit c && isHexDigit d then
        hexNum a b c d :: decodeEscAux fuel rest2
      else 35 :: decodeEscAux fuel xs
    | _, _ => x :: decodeEscAux fuel xs

/-- `UnicodeFilenameFixer.decode_unicode_escape` (lines 18–34): replace
every non-overlapping occurrence of `#U` + 4 hex digits by the code
point the digits denote.  (The `ValueError` fallback of the source is
dead code: four hex digits always convert.) -/
def decode_unicode_escape (filename : List Nat) : List Nat :=
  decodeEscAux filename.length filename

/-- `re.search(r'#U[0-9a-fA-F]{4}', name)`: some position starts a
`#U` + 4-hex-digits match. -/
def containsEscape : List Nat → Bool
  | 35 :: rest =>
    (match rest with
     | 85 :: a :: b :: c :: d :: _ =>
       isHexDigit a && isHexDigit b && isHexDigit c && isHexDigit d
     | _ => false) || containsEscape rest
  | _ :: rest => containsEscape rest
  | [] => false

/-- `UnicodeFilenameFixer.fix_pathname` (lines 36–69): skip names
without an escape pattern, skip when decoding changes nothing, reject
the candidate when the destination exists (before any rename), else
attempt the rename; a raising rename is caught and reported as `False`.
Returns the Python boolean and the trace of rename attempts. -/
def fix_pathname (fs : FSModel) (path : Path) : Bool × List Event :=
  let original_name := path.name
  if !containsEscape original_name then (false, [])
  else
    let new_name := decode_unicode_escape original_name
    if new_name == original_name then (false, [])
    else
      let new_path : Path := ⟨path.parent, new_name⟩
      if fs.pathExists new_path then (false, [])
      else if fs.renameOk path new_path then
        (true, [Event.renameAttempt path new_path])
      else
        (false, [Event.renameAttempt path new_path])

/-- Python `str.lower()` restricted to ASCII letters (the encoding
labels compared in the source are ASCII). -/
def strLower (s : String) : String := ⟨s.data.map Char.toLower⟩

/-- `EncodingFixer.detect_encoding` (lines 20–32): empty content (or a
read failure) yields no guess, otherwise the result of the `chardet`
prober, which is passed in as the parameter `detect` (it may itself
report nothing). -/
def detect_encoding (detect : List Nat → Option String)
    (raw_data : List Nat) : Option String :=
  if raw_data == [] then none else detect raw_data

/-- UTF-8 encoding of one code point (scalar values; the engines below
only ever encode codec output, which contains no surrogates). -/
def utf8EncodeChar (c : Nat) : List Nat :=
  if c < 0x80 then [c]
  else if c < 0x800 then [0xC0 + c / 64, 0x80 + c % 64]
  else if c < 0x10000 then
    [0xE0 + c / 4096, 0x80 + (c / 64) % 64, 0x80 + c % 64]
  else
    [0xF0 + c / 262144, 0x80 + (c / 4096) % 64,
     0x80 + (c / 64) % 64, 0x80 + c % 64]

/-- `text.encode('utf-8')` / writing a text file back as UTF-8. -/
def encodeUtf8 : List Nat → List Nat
  | [] => []
  | c :: rest => utf8EncodeChar c ++ encodeUtf8 rest

/-- The state of one file as seen by content repair: whether the path
is a regular file, and its byte content. -/
structure ContentFS where
  is_file : Bool
  content : List Nat
deriving Repr

/-- `EncodingFixer.fix_file_content_encoding` (lines 118–152).
`readText enc bs` models `open(path, 'r', encoding=enc,
errors='ignore').read()` — total, unmappable byte sequences dropped;
`detect` models `chardet.detect(...)['encoding']`.  Returns the Python
boolean and the resulting byte content of the file (unchanged when no
rewrite happens). -/
def fix_file_content_encoding (readText : String → List Nat → List Nat)
    (detect : List Nat → Option String) (fs : ContentFS) :
    Bool × List Nat :=
  if !fs.is_file then (false, fs.content)
  else if (fs.content.take 1024).contains 0 then (false, fs.content)
  else
    match detect_encoding detect fs.content with
    | none => (false, fs.content)
    | some detected_encoding =>
      if strLower detected_encoding == "utf-8" then (false, fs.content)
      else (true, encodeUtf8 (readText detected_encoding fs.content))

/-- The byte-to-code-point table of the `cp1252` codec: ASCII and
`0xA0`–`0xFF` map to themselves, `0x80`–`0x9F` carry the Windows-1252
punctuation block, and the five bytes `0x81, 0x8D, 0x8F, 0x90, 0x9D`
are unmapped (`none`). -/
def cp1252Map (b : Nat) : Option Nat :=
  if b < 0x80 then some b
  else if 0xA0 ≤ b then some b
  else match b with
    | 0x80 => some 0x20AC
    | 0x82 => some 0x201A
    | 0x83 => some 0x0192
    | 0x84 => some 0x201E
    | 0x85 => some 0x2026
    | 0x86 => some 0x2020
    | 0x87 => some 0x2021
    | 0x88 => some 0x02C6
    | 0x89 => some 0x2030
    | 0x8A => some 0x0160
    | 0x8B => some 0x2039
    | 0x8C => some 0x0152
    | 0x8E => some 0x017D
    | 0x91 => some 0x2018
    | 0x92 => some 0x2019
    | 0x93 => some 0x201C
    | 0x94 => some 0x201D
    | 0x95 => some 0x2022
    | 0x96 => some 0x2013
    | 0x97 => some 0x2014
    | 0x98 => some 0x02DC
    | 0x99 => some 0x2122
    | 0x9A => some 0x0161
    | 0x9B => some 0x203A
    | 0x9C => some 0x0153
    | 0x9E => some 0x017E
    | 0x9F => some 0x0178
    | _ => none

/-- `bytes.decode('cp1252', errors='ignore')`: unmapped bytes are
dropped. -/
def decodeCp1252Ignore (bs : List Nat) : List Nat :=
  bs.filterMap cp1252Map

/-- `bytes.decode('cp1252', errors='replace')`: unmapped bytes become
the replacement character U+FFFD.  (The source never calls this; it is
the behaviour the spec describes, kept for comparison.) -/
def decodeCp1252Replace (bs : List Nat) : List Nat :=
  bs.map (fun b => (cp1252Map b).getD 0xFFFD)

/-- Continuation byte test for `validUtf8`. -/
def utf8Cont (b : Nat) : Bool := 0x80 ≤ b && b ≤ 0xBF

/-- Fuel-driven worker for `validUtf8`. -/
def validUtf8Aux : Nat → List Nat → Bool
  | 0, l => l == []
  | _ + 1, [] => true
  | fuel + 1, b :: rest =>
    if b ≤ 0x7F then validUtf8Aux fuel rest
    else if 0xC2 ≤ b && b ≤ 0xDF then
      match rest with
      | c :: r => utf8Cont c && validUtf8Aux fuel r
      | [] => false
    else if b == 0xE0 then
      match rest with
      | c :: d :: r =>
        (0xA0 ≤ c && c ≤ 0xBF) && utf8Cont d && validUtf8Aux fuel r
      | _ => false
    else if (0xE1 ≤ b && b ≤ 0xEC) || (0xEE ≤ b && b ≤ 0xEF) then
      match rest with
      | c :: d :: r => utf8Cont c && utf8Cont d && validUtf8Aux fuel r
      | _ => false
    else if b == 0xED then
      match rest with
      | c :: d :: r =>
        (0x80 ≤ c && c ≤ 0x9F) && utf8Cont d && validUtf8Aux fuel r
      | _ => false
    else if b == 0xF0 then
      match rest with
      | c :: d :: e :: r =>
        (0x90 ≤ c && c ≤ 0xBF) && utf8Cont d && utf8Cont e &&
          validUtf8Aux fuel r
      | _ => false
    else if 0xF1 ≤ b && b ≤ 0xF3 then
      match rest with
      | c :: d :: e :: r =>
        utf8Cont c && utf8Cont d && utf8Cont e && validUtf8Aux fuel r
      | _ => false
    else if b == 0xF4 then
      match rest with
      | c :: d :: e :: r =>
        (0x80 ≤ c && c ≤ 0x8F) && utf8Cont d && utf8Cont e &&
          validUtf8Aux fuel r
      | _ => false
    else false

/-- Modelled from the spec: "a file already stored in the target
universal encoding" — the byte content is well-formed UTF-8 (no
overlong forms, no surrogates, scalar values up to U+10FFFF). -/
def validUtf8 (bs : List Nat) : Bool := validUtf8Aux bs.length bs


/-- Concrete scenario for claim C1: the name `²âÊÔ` (code points
B2 E2 CA D4 — the Latin-1 reading of the GBK bytes of `测试`). -/
def c1path : Path := ⟨"dir", [0xB2, 0xE2, 0xCA, 0xD4]⟩

/-- Filesystem for the C1 scenario: no destination exists, renames
succeed. -/
def c1fs : FSModel := ⟨fun _ => false, fun _ _ => true⟩

/-- Codec behaviour for the C1 scenario on the bytes B2 E2 CA D4:
Latin-1 and cp1252 map each of these bytes to the identical code point
(both map A0–FF to U+00A0–U+00FF); GBK and its subset GB2312 decode the
two double-byte sequences as `测试`; Big5 also parses them as two
double-byte sequences, giving two CJK characters — modelled as
U+4E00 U+4E01, since only their being non-ASCII affects any run below
(every Big5 double-byte character is non-ASCII). -/
def c1dec : String → List Nat → List Nat := fun e bs =>
  if bs == [0xB2, 0xE2, 0xCA, 0xD4] then
    if e == "gbk" || e == "gb2312" then [0x6D4B, 0x8BD5]
    else if e == "big5" then [0x4E00, 0x4E01]
    else bs
  else bs

/-- Concrete scenario for the amended claim C1: the name `\u0081@`
(code points 81 40, the Latin-1 reading of bytes 81 40). -/
def w1path : Path := ⟨"dir", [0x81, 0x40]⟩

/-- Filesystem for the amended-C1 scenario. -/
def w1fs : FSModel := ⟨fun _ => false, fun _ _ => true⟩

/-- Codec behaviour on the bytes 81 40: Latin-1 is the identity; cp1252
drops the unmapped byte 81 and keeps `@`; GBK reads 81 40 as the
double-byte character 丂 (U+4E02); GB2312 and Big5 reject 81 as a lead
byte, drop it, and keep `@`. -/
def w1dec : String → List Nat → List Nat := fun e bs =>
  if e == "latin1" then bs
  else if e == "gbk" then [0x4E02]
  else [0x40]

/-- Collision-route scenario for the amended claim C1: the name
`Ã \u0081@` (code points C3 20 81 40).  The mojibake pass rewrites the
`Ã ` pattern to `à`, giving `à\u0081@`, but that destination exists, so
the engine falls through to brute force (line 72 false → line 83). -/
def w1cpath : Path := ⟨"dir", [0xC3, 0x20, 0x81, 0x40]⟩

/-- Filesystem for the collision-route scenario: exactly the mojibake
destination `à\u0081@` exists; renames succeed. -/
def w1cfs : FSModel :=
  ⟨fun p => p.name == [0xE0, 0x81, 0x40], fun _ _ => true⟩

/-- Codec behaviour on the bytes C3 20 81 40: Latin-1 is the identity;
cp1252 keeps C3 20 40 and drops the unmapped 81; GBK drops the lead C3
(20 is no valid trail byte), keeps the space and reads 81 40 as 丂
(U+4E02); GB2312 drops C3 (invalid pair) and 81 (invalid lead), keeping
`space @` — the first ASCII result.  Big5 is never consulted in the run
(the loop stops at GB2312); its value is irrelevant. -/
def w1cdec : String → List Nat → List Nat := fun e bs =>
  if e == "latin1" then bs
  else if e == "cp1252" then [0xC3, 0x20, 0x40]
  else if e == "gbk" then [0x20, 0x4E02]
  else [0x20, 0x40]

/-- Concrete scenario for claim C2: the name `Ã©` (code points C3 A9),
which the mojibake table rewrites to `é`. -/
def c2path : Path := ⟨"dir", [0xC3, 0xA9]⟩

/-- Filesystem for the C2 scenario: no destination exists, but every
rename raises an I/O error. -/
def c2fs : FSModel := ⟨fun _ => false, fun _ _ => false⟩

/-- Codec parameter for the C2 scenario.  It is never consulted in the
run: the engine returns before brute force, which is the point of the
counterexample; any value would do. -/
def c2dec : String → List Nat → List Nat := fun _ bs => bs

/-- Filesystem for the amended-C2 witness: nothing exists, renames
fail. -/
def w2fs : FSModel := ⟨fun _ => false, fun _ _ => false⟩

/-- Content-repair scenario for claim C3: `readText` is the cp1252
codec with `errors='ignore'`. -/
def c3readText : String → List Nat → List Nat :=
  fun _ bs => decodeCp1252Ignore bs

/-- Prober for the C3 scenario: reports Windows-1252 (a label `chardet`
does produce for 8-bit Western-looking content). -/
def c3detect : List Nat → Option String := fun _ => some "Windows-1252"

/-- File for the C3 scenario: the unmapped cp1252 byte 0x81 followed by
`hi`. -/
def c3fs : ContentFS := ⟨true, [0x81, 104, 105]⟩

/-- Content-repair scenario for claim C5: `readText` is the ascii codec
with `errors='ignore'` (keeps exactly the bytes below 128). -/
def c5readText : String → List Nat → List Nat :=
  fun _ bs => bs.filter (fun b => b < 128)

/-- Prober for the C5 scenario: reports `ascii`, which is what `chardet`
returns for pure-ASCII content (with confidence 1.0). -/
def c5detect : List Nat → Option String := fun _ => some "ascii"

/-- File for the C5 scenario: the ASCII (hence valid-UTF-8) content
`hello`. -/
def c5fs : ContentFS := ⟨true, [104, 101, 108, 108, 111]⟩

/-- Filesystem for the C4/C9 witnesses: no destination exists, renames
succeed. -/
def w4fs : FSModel := ⟨fun _ => false, fun _ _ => true⟩

/-- Escape-named entry `#U0041` for the C4/C9 witnesses. -/
def w4upath : Path := ⟨"dir", [35, 85, 48, 48, 52, 49]⟩
end EncodingFixer

namespace EncodingFixer

/-! ### Helper lemmas -/

@[simp] theorem renamesOf_nil : renamesOf [] = [] := rfl

@[simp] theorem renamesOf_decode (e : String) (bs : List Nat)
    (rest : List Event) :
    renamesOf (Event.decodeCall e bs :: rest) = renamesOf rest := rfl

@[simp] theorem renamesOf_rename (p q : Path) (rest : List Event) :
    renamesOf (Event.renameAttempt p q :: rest) =
      (p, q) :: renamesOf rest := rfl

theorem listReplaceFuel_of_not_occurs (rep pat : List Nat) :
    ∀ (fuel : Nat) (s : List Nat), occursIn pat s = false →
      listReplaceFuel rep pat fuel s = s := by
  intro fuel
  induction fuel with
  | zero => intro s _; rfl
  | succ n ih =>
    intro s h
    match s with
    | [] => rfl
    | c :: rest =>
      simp only [occursIn, Bool.or_eq_false_iff] at h
      simp only [listReplaceFuel, h.1, Bool.and_false, if_false]
      exact congrArg (c :: ·) (ih rest h.2)

theorem listReplace_of_not_occurs (s pat rep : List Nat)
    (h : occursIn pat s = false) : listReplace s pat rep = s :=
  listReplaceFuel_of_not_occurs rep pat s.length s h

theorem foldl_listReplace_of_not_occurs :
    ∀ (ps : List (List Nat × List Nat)) (t : List Nat),
      (∀ pr ∈ ps, occursIn pr.1 t = false) →
      ps.foldl (fun acc pr => listReplace acc pr.1 pr.2) t = t := by
  intro ps
  induction ps with
  | nil => intro t _; rfl
  | cons p ps ih =>
    intro t h
    simp only [List.foldl_cons]
    rw [listReplace_of_not_occurs t p.1 p.2 (h p (by simp))]
    exact ih t (fun pr hpr => h pr (by simp [hpr]))

/-- C6: the claim as stated is false: applying the mojibake table twice
can differ from applying it once.  On the name `æ–‡Ã¤»¶` (code points
below) the first pass rewrites the embedded `Ã¤` to `ä`, which *creates*
an occurrence of the six-character pattern `æ–‡ä»¶`; only the second
pass rewrites that to `文件`. -/
theorem c6_mojibake_not_idempotent_counterexample :
    applyMojibake [0xE6, 0x2013, 0x2021, 0xC3, 0xA4, 0xBB, 0xB6]
      = [0xE6, 0x2013, 0x2021, 0xE4, 0xBB, 0xB6] ∧
    applyMojibake (applyMojibake [0xE6, 0x2013, 0x2021, 0xC3, 0xA4, 0xBB, 0xB6])
      = [0x6587, 0x4EF6] ∧
    applyMojibake (applyMojibake [0xE6, 0x2013, 0x2021, 0xC3, 0xA4, 0xBB, 0xB6])
      ≠ applyMojibake [0xE6, 0x2013, 0x2021, 0xC3, 0xA4, 0xBB, 0xB6] := by
  refine ⟨by decide, by decide, by decide⟩

/-- C6 (amended): applying the table twice agrees with applying it once
for every name whose single application leaves no occurrence of any
table pattern — in particular on names already free of every pattern.
(In general a replacement may create the six-character pattern, see the
counterexample.) -/
theorem c6_mojibake_idempotent_when_result_clean (s : List Nat)
    (h : ∀ pr ∈ mojibake_fixes, occursIn pr.1 (applyMojibake s) = false) :
    applyMojibake (applyMojibake s) = applyMojibake s :=
  foldl_listReplace_of_not_occurs mojibake_fixes (applyMojibake s) h

/-- C6 witness: a concrete name (`Ã©x`) whose repaired form `éx` is
pattern-free, so the amended idempotence applies. -/
theorem c6_mojibake_idempotent_witness :
    (∀ pr ∈ mojibake_fixes,
      occursIn pr.1 (applyMojibake [0xC3, 0xA9, 120]) = false) ∧
    applyMojibake (applyMojibake [0xC3, 0xA9, 120])
      = applyMojibake [0xC3, 0xA9, 120] :=
  ⟨by decide, c6_mojibake_idempotent_when_result_clean _ (by decide)⟩

end EncodingFixer

namespace EncodingFixer

theorem decodeEscAux_nil (fuel : Nat) : decodeEscAux fuel [] = [] := by
  cases fuel <;> rfl

theorem decodeEscAux_of_not_contains (fuel : Nat) (l : List Nat) :
    containsEscape l = false → decodeEscAux fuel l = l := by
  induction fuel, l using decodeEscAux.induct with
  | case1 s => intro _; rfl
  | case2 n => intro _; rfl
  | case3 fuel a b c d rest2 hdig ih =>
    intro h
    rw [containsEscape.eq_1] at h
    simp [hdig] at h
  | case4 fuel a b c d rest2 hdig ih =>
    intro h
    rw [containsEscape.eq_1] at h
    simp only [Bool.or_eq_false_iff] at h
    rw [decodeEscAux.eq_3, if_neg (by simp [h.1])]
    exact congrArg (35 :: ·) (ih h.2)
  | case5 fuel c rest hshape ih =>
    intro h
    rw [decodeEscAux.eq_4 fuel c rest hshape]
    by_cases hc : c = 35
    · subst hc
      rw [containsEscape.eq_2 rest
        (fun a b c1 d t he => hshape a b c1 d t rfl he)] at h
      simp only [Bool.false_or] at h
      exact congrArg (35 :: ·) (ih h)
    · rw [containsEscape.eq_3 c rest hc] at h
      exact congrArg (c :: ·) (ih h)

theorem decodeEscAux_fuel_eq (fuel : Nat) (l : List Nat) :
    ∀ fuel2, l.length ≤ fuel → l.length ≤ fuel2 →
      decodeEscAux fuel l = decodeEscAux fuel2 l := by
  induction fuel, l using decodeEscAux.induct with
  | case1 s =>
    intro fuel2 h1 _
    have hs : s = [] := List.eq_nil_of_length_eq_zero (Nat.le_zero.mp h1)
    subst hs
    simp [decodeEscAux_nil]
  | case2 n =>
    intro fuel2 _ _
    simp [decodeEscAux_nil]
  | case3 fuel a b c d rest2 hdig ih =>
    intro fuel2 h1 h2
    match fuel2 with
    | 0 => simp at h2
    | m + 1 =>
      rw [decodeEscAux.eq_3, decodeEscAux.eq_3, if_pos hdig, if_pos hdig]
      refine congrArg _ (ih m ?_ ?_)
      · simp only [List.length_cons] at h1; omega
      · simp only [List.length_cons] at h2; omega
  | case4 fuel a b c d rest2 hdig ih =>
    intro fuel2 h1 h2
    match fuel2 with
    | 0 => simp at h2
    | m + 1 =>
      rw [decodeEscAux.eq_3, decodeEscAux.eq_3, if_neg hdig, if_neg hdig]
      refine congrArg _ (ih m ?_ ?_)
      · simp only [List.length_cons] at h1 ⊢; omega
      · simp only [List.length_cons] at h2 ⊢; omega
  | case5 fuel c rest hshape ih =>
    intro fuel2 h1 h2
    match fuel2 with
    | 0 => simp at h2
    | m + 1 =>
      rw [decodeEscAux.eq_4 fuel c rest hshape,
        decodeEscAux.eq_4 m c rest hshape]
      refine congrArg _ (ih m ?_ ?_)
      · simp only [List.length_cons] at h1 ⊢; omega
      · simp only [List.length_cons] at h2 ⊢; omega

theorem decode_unicode_escape_of_not_contains (l : List Nat)
    (h : containsEscape l = false) : decode_unicode_escape l = l :=
  decodeEscAux_of_not_contains l.length l h

theorem decode_unicode_escape_head (a b c d : Nat) (r : List Nat)
    (h : (isHexDigit a && isHexDigit b && isHexDigit c && isHexDigit d)
      = true) :
    decode_unicode_escape (35 :: 85 :: a :: b :: c :: d :: r)
      = hexNum a b c d :: decode_unicode_escape r := by
  show decodeEscAux (35 :: 85 :: a :: b :: c :: d :: r).length _ = _
  have hl : (35 :: 85 :: a :: b :: c :: d :: r).length = r.length + 5 + 1 := by
    simp only [List.length_cons]
  rw [hl, decodeEscAux.eq_3, if_pos h]
  exact congrArg _ (decodeEscAux_fuel_eq (r.length + 5) r r.length
    (by omega) (le_refl _))

end EncodingFixer

namespace EncodingFixer

/-- C7: the escape decoder replaces each non-overlapping `#U`+4-hex
occurrence with the code point the digits denote (head-occurrence
equation), returns inputs with no occurrence unchanged, decodes
`#U6d4b#U8bd5.txt` to `测试.txt` exactly, and is a no-op on the decoded
name.  Totality is by construction (`decode_unicode_escape` is a total
function). -/
theorem c7_escape_decoder :
    (∀ a b c d : Nat, ∀ r : List Nat,
      (isHexDigit a && isHexDigit b && isHexDigit c && isHexDigit d)
        = true →
      decode_unicode_escape (35 :: 85 :: a :: b :: c :: d :: r)
        = hexNum a b c d :: decode_unicode_escape r) ∧
    (∀ s : List Nat, containsEscape s = false →
      decode_unicode_escape s = s) ∧
    decode_unicode_escape
      [35, 85, 54, 100, 52, 98, 35, 85, 56, 98, 100, 53, 46, 116, 120, 116]
      = [0x6D4B, 0x8BD5, 46, 116, 120, 116] ∧
    decode_unicode_escape [0x6D4B, 0x8BD5, 46, 116, 120, 116]
      = [0x6D4B, 0x8BD5, 46, 116, 120, 116] :=
  ⟨decode_unicode_escape_head, decode_unicode_escape_of_not_contains,
   by decide, by decide⟩

/-- C7 witness: the quantified parts of `c7_escape_decoder` applied at
concrete inputs (`#U0041abc` and the pattern-free `abc`). -/
theorem c7_escape_decoder_witness :
    decode_unicode_escape (35 :: 85 :: 48 :: 48 :: 52 :: 49 :: [97, 98, 99])
      = hexNum 48 48 52 49 :: decode_unicode_escape [97, 98, 99] ∧
    decode_unicode_escape [97, 98, 99] = [97, 98, 99] :=
  ⟨c7_escape_decoder.1 48 48 52 49 [97, 98, 99] (by decide),
   c7_escape_decoder.2.1 [97, 98, 99] (by decide)⟩

/-- C8: a file whose first 1024 bytes contain a NUL byte is classified
binary: content repair returns `False` and the bytes are unchanged,
whatever the prober and codecs do. -/
theorem c8_nul_byte_skips (readText : String → List Nat → List Nat)
    (detect : List Nat → Option String) (fs : ContentFS)
    (h : (fs.content.take 1024).contains 0 = true) :
    fix_file_content_encoding readText detect fs = (false, fs.content) := by
  unfold fix_file_content_encoding
  by_cases hf : fs.is_file
  · simp only [hf, Bool.not_true, Bool.false_eq_true, if_false]
    rw [if_pos h]
  · simp only [Bool.not_eq_true] at hf
    simp [hf]

/-- C8 witness: a two-byte file `"A\x00"`. -/
theorem c8_nul_byte_skips_witness :
    (([65, 0] : List Nat).take 1024).contains 0 = true ∧
    fix_file_content_encoding (fun _ bs => bs) (fun _ => some "ascii")
      ⟨true, [65, 0]⟩ = (false, [65, 0]) :=
  ⟨by decide,
   c8_nul_byte_skips (fun _ bs => bs) (fun _ => some "ascii")
     ⟨true, [65, 0]⟩ (by decide)⟩

end EncodingFixer

namespace EncodingFixer

theorem bruteForce_renames (fs : FSModel) (dec : String → List Nat → List Nat)
    (file_path : Path) (filename : List Nat) :
    ∀ (l : List String) (p q : Path),
      (p, q) ∈ renamesOf (bruteForce fs dec file_path filename l).2 →
      p = file_path ∧ q.parent = file_path.parent ∧
        fs.pathExists q = false ∧ is_filename_valid q.name = true ∧
        q.name ≠ [] := by
  intro l
  induction l with
  | nil => intro p q h; simp [bruteForce] at h
  | cons e rest ih =>
    intro p q h
    cases henc : encodeLatin1 filename with
    | none =>
      rw [bruteForce, henc] at h
      exact ih p q h
    | some bs =>
      simp only [bruteForce, henc] at h
      by_cases hc : (dec e bs != [] && is_filename_valid (dec e bs) &&
          !(fs.pathExists ⟨file_path.parent, dec e bs⟩)) = true
      · rw [if_pos hc] at h
        simp only [Bool.and_eq_true, bne_iff_ne, ne_eq,
          Bool.not_eq_true'] at hc
        by_cases hr : fs.renameOk file_path ⟨file_path.parent, dec e bs⟩
          = true
        · rw [if_pos hr] at h
          simp only [renamesOf_decode, renamesOf_rename, renamesOf_nil,
            List.mem_singleton, Prod.mk.injEq] at h
          refine ⟨h.1, ?_, ?_, ?_, ?_⟩ <;> rw [h.2]
          · exact hc.2
          · exact hc.1.2
          · exact hc.1.1
        · rw [if_neg hr] at h
          simp only [renamesOf_decode, renamesOf_rename,
            List.mem_cons, Prod.mk.injEq] at h
          rcases h with ⟨h1, h2⟩ | h
          · refine ⟨h1, ?_, ?_, ?_, ?_⟩ <;> rw [h2]
            · exact hc.2
            · exact hc.1.2
            · exact hc.1.1
          · exact ih p q h
      · rw [if_neg hc] at h
        simp only [renamesOf_decode] at h
        exact ih p q h

theorem bruteForce_first_ok (fs : FSModel)
    (dec : String → List Nat → List Nat) (file_path : Path)
    (filename bs : List Nat) (henc : encodeLatin1 filename = some bs) :
    ∀ (pre : List String) (e : String) (post : List String),
      (∀ x ∈ pre, code_candidate_ok fs dec file_path bs x = false) →
      code_candidate_ok fs dec file_path bs e = true →
      (renamesOf
        (bruteForce fs dec file_path filename (pre ++ e :: post)).2).head?
        = some (file_path, ⟨file_path.parent, dec e bs⟩) := by
  intro pre
  induction pre with
  | nil =>
    intro e post _ he
    have hcond : (dec e bs != [] && is_filename_valid (dec e bs) &&
        !(fs.pathExists ⟨file_path.parent, dec e bs⟩)) = true := he
    simp only [List.nil_append, bruteForce, henc]
    rw [if_pos hcond]
    by_cases hr : fs.renameOk file_path ⟨file_path.parent, dec e bs⟩ = true
    · rw [if_pos hr]; rfl
    · rw [if_neg hr]; rfl
  | cons x pre ih =>
    intro e post hpre he
    have hx : (dec x bs != [] && is_filename_valid (dec x bs) &&
        !(fs.pathExists ⟨file_path.parent, dec x bs⟩)) = false :=
      hpre x (by simp)
    simp only [List.cons_append, bruteForce, henc]
    rw [if_neg (by simp [hx])]
    simp only [renamesOf_decode]
    exact ih e post (fun y hy => hpre y (by simp [hy])) he

theorem bruteForce_of_encode_fail (fs : FSModel)
    (dec : String → List Nat → List Nat) (file_path : Path)
    (filename : List Nat) (henc : encodeLatin1 filename = none) :
    ∀ l : List String,
      bruteForce fs dec file_path filename l = (none, []) := by
  intro l
  induction l with
  | nil => rfl
  | cons e rest ih => rw [bruteForce, henc]; exact ih

end EncodingFixer

namespace EncodingFixer

/-- C1 counterexample: the name `²âÊÔ` reaches brute force (not clean,
mojibake pass changes nothing); under the claim's acceptance test
(non-empty, differs from the raw name, no collision — `isClean` NOT
required) the first satisfying candidate is `gbk`, decoding to `测试`;
yet the engine attempts no rename at all and returns `None`, because
line 101 of the source additionally requires `is_filename_valid` of the
candidate, which the non-ASCII `测试` fails. -/
theorem c1_brute_force_counterexample :
    is_filename_valid c1path.name = false ∧
    applyMojibake c1path.name = c1path.name ∧
    encodeLatin1 c1path.name = some [0xB2, 0xE2, 0xCA, 0xD4] ∧
    spec_candidate_ok c1fs c1dec c1path [0xB2, 0xE2, 0xCA, 0xD4] "latin1"
      = false ∧
    spec_candidate_ok c1fs c1dec c1path [0xB2, 0xE2, 0xCA, 0xD4] "cp1252"
      = false ∧
    spec_candidate_ok c1fs c1dec c1path [0xB2, 0xE2, 0xCA, 0xD4] "gbk"
      = true ∧
    c1dec "gbk" [0xB2, 0xE2, 0xCA, 0xD4] = [0x6D4B, 0x8BD5] ∧
    renamesOf (fix_filename_encoding c1fs c1dec c1path).2 = [] ∧
    (fix_filename_encoding c1fs c1dec c1path).1 = none := by
  refine ⟨by decide, by decide, by decide, by decide, by decide,
    by decide, by decide, by decide, by decide⟩

/-- C1 (amended): for every name that reaches brute force — either
because the mojibake pass changed nothing, or because it changed the
name but the destination already existed (the line-72 collision
fall-through) — the engine attempts a rename for the first candidate
encoding whose re-decoded result is non-empty, passes
`is_filename_valid` (this IS required, by line 101), and does not
already exist at the target location; such a result automatically
differs from the raw garbled name, since the raw name is not clean.
The first rename attempt of the run targets exactly that candidate's
result. -/
theorem c1_first_accepted_candidate (fs : FSModel)
    (dec : String → List Nat → List Nat) (path : Path) (bs : List Nat)
    (pre : List String) (e : String) (post : List String)
    (hname : is_filename_valid path.name = false)
    (hreach : applyMojibake path.name = path.name ∨
      fs.pathExists ⟨path.parent, applyMojibake path.name⟩ = true)
    (henc : encodeLatin1 path.name = some bs)
    (hsplit : encodings_to_try = pre ++ e :: post)
    (hpre : ∀ x ∈ pre, code_candidate_ok fs dec path bs x = false)
    (he : code_candidate_ok fs dec path bs e = true) :
    (renamesOf (fix_filename_encoding fs dec path).2).head?
      = some (path, ⟨path.parent, dec e bs⟩) := by
  unfold fix_filename_encoding
  rw [if_neg (by simp [hname])]
  by_cases hm : (applyMojibake path.name != path.name) = true
  · rcases hreach with hmoj | hex
    · rw [bne_iff_ne] at hm
      exact absurd hmoj hm
    · rw [if_pos hm, if_neg (by simp [hex]), hsplit]
      exact bruteForce_first_ok fs dec path path.name bs henc pre e post
        hpre he
  · rw [if_neg hm, hsplit]
    exact bruteForce_first_ok fs dec path path.name bs henc pre e post
      hpre he

/-- C1 witness, exercising both routes into brute force: on `\u0081@`
(mojibake pass changes nothing) cp1252 is the first accepted candidate,
giving `@`; on `Ã \u0081@` (mojibake result collides with an existing
entry, line-72 fall-through) GB2312 is the first accepted candidate,
giving `space @`. -/
theorem c1_first_accepted_candidate_witness :
    (renamesOf (fix_filename_encoding w1fs w1dec w1path).2).head?
      = some (w1path, ⟨w1path.parent, w1dec "cp1252" [0x81, 0x40]⟩) ∧
    (renamesOf (fix_filename_encoding w1cfs w1cdec w1cpath).2).head?
      = some (w1cpath,
          ⟨w1cpath.parent, w1cdec "gb2312" [0xC3, 0x20, 0x81, 0x40]⟩) :=
  ⟨c1_first_accepted_candidate w1fs w1dec w1path [0x81, 0x40]
     ["latin1"] "cp1252" ["gbk", "gb2312", "big5"]
     (by decide) (Or.inl (by decide)) (by decide) rfl (by decide)
     (by decide),
   c1_first_accepted_candidate w1cfs w1cdec w1cpath [0xC3, 0x20, 0x81, 0x40]
     ["latin1", "cp1252", "gbk"] "gb2312" ["big5"]
     (by decide) (Or.inr (by decide)) (by decide) rfl (by decide)
     (by decide)⟩

/-- C2 counterexample: the name `Ã©` enters the mojibake strategy, the
rename raises (modelled by `c2fs.renameOk ≡ false`); the claim says
brute-force recovery is still attempted, but the engine returns `None`
immediately (line 80 of the source) — the trace holds the one failed
rename attempt and no decode call whatsoever. -/
theorem c2_mojibake_failure_counterexample :
    is_filename_valid c2path.name = false ∧
    applyMojibake c2path.name = [0xE9] ∧
    c2fs.pathExists ⟨"dir", [0xE9]⟩ = false ∧
    c2fs.renameOk c2path ⟨"dir", [0xE9]⟩ = false ∧
    fix_filename_encoding c2fs c2dec c2path
      = (none, [Event.renameAttempt c2path ⟨"dir", [0xE9]⟩]) := by
  refine ⟨by decide, by decide, by decide, by decide, by decide⟩

/-- C2 (amended): rename I/O failures are always caught (the engine
returns normally), and inside brute force a failing rename attempt
moves on to the next candidate; but a failing mojibake-repair rename
ends the processing of the entry immediately — the engine returns no
repair *without* attempting brute force. -/
theorem c2_rename_failure_policy :
    (∀ (fs : FSModel) (dec : String → List Nat → List Nat) (path : Path)
      (bs : List Nat) (e : String) (rest : List String),
      encodeLatin1 path.name = some bs →
      code_candidate_ok fs dec path bs e = true →
      fs.renameOk path ⟨path.parent, dec e bs⟩ = false →
      bruteForce fs dec path path.name (e :: rest)
        = ((bruteForce fs dec path path.name rest).1,
           Event.decodeCall e bs ::
           Event.renameAttempt path ⟨path.parent, dec e bs⟩ ::
           (bruteForce fs dec path path.name rest).2)) ∧
    (∀ (fs : FSModel) (dec : String → List Nat → List Nat) (path : Path),
      is_filename_valid path.name = false →
      applyMojibake path.name ≠ path.name →
      fs.pathExists ⟨path.parent, applyMojibake path.name⟩ = false →
      fs.renameOk path ⟨path.parent, applyMojibake path.name⟩ = false →
      fix_filename_encoding fs dec path
        = (none,
           [Event.renameAttempt path
             ⟨path.parent, applyMojibake path.name⟩])) := by
  constructor
  · intro fs dec path bs e rest henc he hr
    have hcond : (dec e bs != [] && is_filename_valid (dec e bs) &&
        !(fs.pathExists ⟨path.parent, dec e bs⟩)) = true := he
    rw [bruteForce, henc]
    simp only [hcond, if_true]
    rw [if_neg (by simp [hr])]
  · intro fs dec path hname hmoj hex hr
    unfold fix_filename_encoding
    rw [if_neg (by simp [hname])]
    rw [if_pos (by simp [bne_iff_ne, hmoj]), if_pos (by simp [hex])]
    rw [if_neg (by simp [hr])]

/-- C2 witness: both halves of `c2_rename_failure_policy` at concrete
inputs — brute force on `\u0081@` continues past the failing `cp1252`
attempt, and the failing mojibake rename on `Ã©` yields the abort. -/
theorem c2_rename_failure_policy_witness :
    bruteForce w2fs w1dec w1path [0x81, 0x40] ["cp1252", "gbk"]
      = ((bruteForce w2fs w1dec w1path [0x81, 0x40] ["gbk"]).1,
         Event.decodeCall "cp1252" [0x81, 0x40] ::
         Event.renameAttempt w1path ⟨w1path.parent, w1dec "cp1252" [0x81, 0x40]⟩ ::
         (bruteForce w2fs w1dec w1path [0x81, 0x40] ["gbk"]).2) ∧
    fix_filename_encoding w2fs c2dec c2path
      = (none,
         [Event.renameAttempt c2path
           ⟨c2path.parent, applyMojibake c2path.name⟩]) :=
  ⟨c2_rename_failure_policy.1 w2fs w1dec w1path [0x81, 0x40] "cp1252"
     ["gbk"] (by decide) (by decide) (by decide),
   c2_rename_failure_policy.2 w2fs c2dec c2path
     (by decide) (by decide) (by decide) (by decide)⟩

end EncodingFixer

namespace EncodingFixer

theorem fix_filename_encoding_renames (fs : FSModel)
    (dec : String → List Nat → List Nat) (path : Path) (p q : Path)
    (h : (p, q) ∈ renamesOf (fix_filename_encoding fs dec path).2) :
    p = path ∧ q.parent = path.parent ∧ fs.pathExists q = false := by
  unfold fix_filename_encoding at h
  by_cases hv : is_filename_valid path.name = true
  · rw [if_pos hv] at h
    simp at h
  · rw [if_neg hv] at h
    by_cases hm : (applyMojibake path.name != path.name) = true
    · rw [if_pos hm] at h
      by_cases hex : fs.pathExists ⟨path.parent, applyMojibake path.name⟩
        = true
      · rw [if_neg (by simp [hex])] at h
        have := bruteForce_renames fs dec path path.name
          encodings_to_try p q h
        exact ⟨this.1, this.2.1, this.2.2.1⟩
      · rw [if_pos (by simp [Bool.not_eq_true] at hex; simp [hex])] at h
        have hq : (p, q) = (path, ⟨path.parent, applyMojibake path.name⟩) := by
          by_cases hr : fs.renameOk path
            ⟨path.parent, applyMojibake path.name⟩ = true
          · rw [if_pos hr] at h; simpa using h
          · rw [if_neg hr] at h; simpa using h
        rw [Prod.mk.injEq] at hq
        refine ⟨hq.1, ?_, ?_⟩ <;> rw [hq.2]
        · exact (Bool.not_eq_true _).mp hex
    · rw [if_neg hm] at h
      have := bruteForce_renames fs dec path path.name
        encodings_to_try p q h
      exact ⟨this.1, this.2.1, this.2.2.1⟩

theorem fix_pathname_renames (fs : FSModel) (path : Path) (p q : Path)
    (h : (p, q) ∈ renamesOf (fix_pathname fs path).2) :
    p = path ∧ q.parent = path.parent ∧ fs.pathExists q = false := by
  unfold fix_pathname at h
  by_cases h1 : (!containsEscape path.name) = true
  · rw [if_pos h1] at h; simp at h
  · rw [if_neg h1] at h
    by_cases h2 : (decode_unicode_escape path.name == path.name) = true
    · rw [if_pos h2] at h; simp at h
    · rw [if_neg h2] at h
      by_cases h3 : fs.pathExists
        ⟨path.parent, decode_unicode_escape path.name⟩ = true
      · rw [if_pos h3] at h; simp at h
      · rw [if_neg h3] at h
        have hq : (p, q)
            = (path, ⟨path.parent, decode_unicode_escape path.name⟩) := by
          by_cases h4 : fs.renameOk path
            ⟨path.parent, decode_unicode_escape path.name⟩ = true
          · rw [if_pos h4] at h; simpa using h
          · rw [if_neg h4] at h; simpa using h
        rw [Prod.mk.injEq] at hq
        refine ⟨hq.1, ?_, ?_⟩ <;> rw [hq.2]
        · exact (Bool.not_eq_true _).mp h3

end EncodingFixer

namespace EncodingFixer

/-- C4: at every rename attempt of either repair path the destination
was checked not to exist — an existing destination is rejected before
any rename, so no entry is ever overwritten. -/
theorem c4_collision_guard (fs : FSModel)
    (dec : String → List Nat → List Nat) (path : Path) (p q : Path) :
    ((p, q) ∈ renamesOf (fix_filename_encoding fs dec path).2 →
      fs.pathExists q = false) ∧
    ((p, q) ∈ renamesOf (fix_pathname fs path).2 →
      fs.pathExists q = false) :=
  ⟨fun h => (fix_filename_encoding_renames fs dec path p q h).2.2,
   fun h => (fix_pathname_renames fs path p q h).2.2⟩

/-- C4 witness: concrete runs of both engines that do attempt a rename
(`Ã©` → `é` in the mojibake engine, `#U0041` → `A` in the escape
engine); the attempted destinations did not exist. -/
theorem c4_collision_guard_witness :
    w4fs.pathExists ⟨"dir", [0xE9]⟩ = false ∧
    w4fs.pathExists ⟨"dir", [0x41]⟩ = false :=
  ⟨(c4_collision_guard w4fs c2dec c2path c2path ⟨"dir", [0xE9]⟩).1
     (by decide),
   (c4_collision_guard w4fs c2dec w4upath w4upath ⟨"dir", [0x41]⟩).2
     (by decide)⟩

/-- C10: the Latin-1 candidate of brute force never produces a rename:
`filename.encode('latin1')` either raises (some code point above 0xFF,
killing every iteration) or round-trips to the original name, which
already failed `is_filename_valid`; so the run over
`'latin1' :: rest` returns the same result and attempts exactly the
renames of the run over `rest` alone. -/
theorem c10_latin1_never_renames (fs : FSModel)
    (dec : String → List Nat → List Nat) (path : Path)
    (rest : List String)
    (hdec : ∀ bs, dec "latin1" bs = decodeLatin1 bs)
    (hname : is_filename_valid path.name = false) :
    (bruteForce fs dec path path.name ("latin1" :: rest)).1
      = (bruteForce fs dec path path.name rest).1 ∧
    renamesOf (bruteForce fs dec path path.name ("latin1" :: rest)).2
      = renamesOf (bruteForce fs dec path path.name rest).2 := by
  cases henc : encodeLatin1 path.name with
  | none => constructor <;> rw [bruteForce, henc]
  | some bs =>
    have hbs : bs = path.name := by
      unfold encodeLatin1 at henc
      split at henc
      · exact ((Option.some.injEq _ _).mp henc).symm
      · exact absurd henc (by simp)
    have hlat : dec "latin1" bs = path.name := by
      rw [hdec bs, hbs]; rfl
    have hcond : (dec "latin1" bs != [] &&
        is_filename_valid (dec "latin1" bs) &&
        !(fs.pathExists ⟨path.parent, dec "latin1" bs⟩)) = false := by
      rw [hlat, hname]; simp
    constructor
    · simp only [bruteForce, henc]
      rw [if_neg (by simp [hcond])]
    · simp only [bruteForce, henc]
      rw [if_neg (by simp [hcond])]
      rfl

/-- C10 witness: the name `é` with the identity-on-bytes decoder; the
Latin-1 step contributes nothing over the remaining candidates. -/
theorem c10_latin1_never_renames_witness :
    is_filename_valid ([0xE9] : List Nat) = false ∧
    (bruteForce w1fs (fun _ bs => bs) ⟨"dir", [0xE9]⟩ [0xE9]
      ("latin1" :: ["cp1252", "gbk", "gb2312", "big5"])).1
      = (bruteForce w1fs (fun _ bs => bs) ⟨"dir", [0xE9]⟩ [0xE9]
          ["cp1252", "gbk", "gb2312", "big5"]).1 :=
  ⟨by decide,
   (c10_latin1_never_renames w1fs (fun _ bs => bs) ⟨"dir", [0xE9]⟩
     ["cp1252", "gbk", "gb2312", "big5"] (fun _ => rfl) (by decide)).1⟩

end EncodingFixer

namespace EncodingFixer

/-- C3 counterexample: a file `81 68 69` (the unmapped cp1252 byte
0x81 followed by `hi`) probed as Windows-1252.  The claim says the
unmappable byte is replaced by a placeholder, which would write the
UTF-8 of U+FFFD `hi` (`EF BF BD 68 69`); the code decodes with
`errors='ignore'`, dropping the byte, and writes just `hi`. -/
theorem c3_placeholder_counterexample :
    fix_file_content_encoding c3readText c3detect c3fs
      = (true, [104, 105]) ∧
    encodeUtf8 (decodeCp1252Replace c3fs.content)
      = [239, 191, 189, 104, 105] ∧
    (fix_file_content_encoding c3readText c3detect c3fs).2
      ≠ encodeUtf8 (decodeCp1252Replace c3fs.content) := by
  refine ⟨by decide, by decide, by decide⟩

/-- C3 (amended): when content repair proceeds to transcoding with
detected encoding Windows-1252, decoding is total and lossy with
`errors='ignore'`: every unmappable byte is *dropped* (no placeholder
is substituted), the remaining bytes are decoded by the cp1252 table,
and the operation always completes, returning `True` and the UTF-8
re-encoding of the kept characters. -/
theorem c3_transcode_ignores_unmappable
    (readText : String → List Nat → List Nat)
    (detect : List Nat → Option String) (fs : ContentFS)
    (h1 : fs.is_file = true)
    (h2 : (fs.content.take 1024).contains 0 = false)
    (h3 : detect_encoding detect fs.content = some "Windows-1252")
    (h4 : ∀ bs, readText "Windows-1252" bs = decodeCp1252Ignore bs) :
    fix_file_content_encoding readText detect fs
      = (true, encodeUtf8 (fs.content.filterMap cp1252Map)) := by
  unfold fix_file_content_encoding
  rw [if_neg (by simp [h1]), if_neg (by rw [h2]; simp)]
  simp only [h3]
  rw [if_neg (by decide), h4]
  rfl

/-- C3 witness: the amended behaviour on the concrete `81 68 69`
file. -/
theorem c3_transcode_ignores_unmappable_witness :
    fix_file_content_encoding c3readText c3detect c3fs
      = (true, encodeUtf8 (c3fs.content.filterMap cp1252Map)) :=
  c3_transcode_ignores_unmappable c3readText c3detect c3fs
    (by decide) (by decide) (by decide) (fun _ => rfl)

/-- C5 counterexample: the pure-ASCII file `hello` is already stored in
the target encoding (its bytes are valid UTF-8), yet with the prober
reporting `ascii` — `chardet`'s actual answer for pure-ASCII content —
content repair returns `True` (and rewrites the file, here to identical
bytes), contradicting the claimed `False`/no-op. -/
theorem c5_utf8_file_rewritten_counterexample :
    validUtf8 c5fs.content = true ∧
    (strLower "ascii" == "utf-8") = false ∧
    fix_file_content_encoding c5readText c5detect c5fs
      = (true, [104, 101, 108, 108, 111]) := by
  refine ⟨by decide, by decide, by decide⟩

/-- C5 (amended): whenever detection yields no encoding, or an encoding
case-insensitively equal to `utf-8`, content repair returns `False` and
leaves the bytes untouched; a file already valid in the target encoding
can nevertheless be rewritten (and reported repaired) when the prober
labels it with another encoding, such as `ascii`. -/
theorem c5_skip_on_absent_or_utf8
    (readText : String → List Nat → List Nat)
    (detect : List Nat → Option String) (fs : ContentFS) :
    (detect_encoding detect fs.content = none →
      fix_file_content_encoding readText detect fs = (false, fs.content)) ∧
    (∀ e, detect_encoding detect fs.content = some e →
      strLower e = "utf-8" →
      fix_file_content_encoding readText detect fs
        = (false, fs.content)) := by
  constructor
  · intro h
    unfold fix_file_content_encoding
    by_cases hf : fs.is_file = true
    · rw [if_neg (by simp [hf])]
      by_cases hn : (fs.content.take 1024).contains 0 = true
      · rw [if_pos hn]
      · rw [if_neg hn, h]
    · simp only [Bool.not_eq_true] at hf
      rw [if_pos (by simp [hf])]
  · intro e h hlow
    unfold fix_file_content_encoding
    by_cases hf : fs.is_file = true
    · rw [if_neg (by simp [hf])]
      by_cases hn : (fs.content.take 1024).contains 0 = true
      · rw [if_pos hn]
      · rw [if_neg hn]
        simp only [h]
        rw [if_pos (by simp [hlow])]
    · simp only [Bool.not_eq_true] at hf
      rw [if_pos (by simp [hf])]

/-- C5 witness: both skip conditions at concrete inputs — a prober that
reports nothing, and one that reports `UTF-8` (matching the target
case-insensitively). -/
theorem c5_skip_on_absent_or_utf8_witness :
    fix_file_content_encoding (fun _ bs => bs) (fun _ => none)
      ⟨true, [104]⟩ = (false, [104]) ∧
    fix_file_content_encoding (fun _ bs => bs) (fun _ => some "UTF-8")
      ⟨true, [104]⟩ = (false, [104]) :=
  ⟨(c5_skip_on_absent_or_utf8 (fun _ bs => bs) (fun _ => none)
      ⟨true, [104]⟩).1 (by decide),
   (c5_skip_on_absent_or_utf8 (fun _ bs => bs) (fun _ => some "UTF-8")
      ⟨true, [104]⟩).2 "UTF-8" (by decide) (by decide)⟩

end EncodingFixer
